import Mathlib

/-!
Verification of the single-table B-tree storage engine in src/main.c.
Pages are modelled as byte functions (Nat → Nat, values taken mod 256),
the on-page layout constants and accessors are transcribed from the source,
and the execute paths are embedded as state-passing functions.  The one
while loop (`execute_select`) is given an explicit fuel argument; `none`
means the loop did not terminate within the given fuel.
-/

namespace DB

/-! Layout constants, transcribed from src/main.c lines 12-14, 65-75, 206-236.
`sizeof(ssize_t)` is 8, `sizeof(int)` is 4, `char username[33]`, `char email[256]`. -/

def COLUMN_USERNAME_SIZE : Nat := 32

def COLUMN_EMAIL_SIZE : Nat := 255

def TABLE_MAX_PAGES : Nat := 100

def ID_OFFSET : Nat := 0

def ID_SIZE : Nat := 8

def USERNAME_SIZE : Nat := COLUMN_USERNAME_SIZE + 1

def USERNAME_OFFSET : Nat := ID_OFFSET + ID_SIZE

def EMAIL_SIZE : Nat := COLUMN_EMAIL_SIZE + 1

def EMAIL_OFFSET : Nat := USERNAME_OFFSET + USERNAME_SIZE

def ROW_SIZE : Nat := ID_SIZE + USERNAME_SIZE + EMAIL_SIZE

def PAGE_SIZE : Nat := 4096

def NODE_TYPE_SIZE : Nat := 4

def NODE_TYPE_OFFSET : Nat := 0

def IS_ROOT_SIZE : Nat := 4

def IS_ROOT_OFFSET : Nat := NODE_TYPE_SIZE

def PARENT_POINTER_SIZE : Nat := 4

def PARENT_POINTER_OFFSET : Nat := IS_ROOT_OFFSET + IS_ROOT_SIZE

def COMMON_NODE_HEADER_SIZE : Nat := NODE_TYPE_SIZE + IS_ROOT_SIZE + PARENT_POINTER_SIZE

def LEAF_NODE_NUM_CELLS_SIZE : Nat := 4

def LEAF_NODE_NUM_CELLS_OFFSET : Nat := COMMON_NODE_HEADER_SIZE

def LEAF_NODE_HEADER_SIZE : Nat := COMMON_NODE_HEADER_SIZE + LEAF_NODE_NUM_CELLS_SIZE

def LEAF_NODE_KEY_SIZE : Nat := 4

def LEAF_NODE_KEY_OFFSET : Nat := 0

def LEAF_NODE_VALUE_SIZE : Nat := ROW_SIZE

def LEAF_NODE_VALUE_OFFSET : Nat := LEAF_NODE_KEY_OFFSET + LEAF_NODE_KEY_SIZE

def LEAF_NODE_CELL_SIZE : Nat := LEAF_NODE_KEY_SIZE + LEAF_NODE_VALUE_SIZE

def LEAF_NODE_SPACE_FOR_CELLS : Nat := PAGE_SIZE - LEAF_NODE_HEADER_SIZE

def LEAF_NODE_MAX_CELLS : Nat := LEAF_NODE_SPACE_FOR_CELLS / LEAF_NODE_CELL_SIZE

/-! Row codec (src/main.c lines 44-49 and 77-89).  A `Row` holds the field
values: the ssize_t id and the two C strings as byte lists (a C string value
is the byte sequence up to the first NUL, so it contains no zero byte). -/

structure Row where
  id : Int
  username : List Nat
  email : List Nat
deriving DecidableEq

/-- Little-endian byte decomposition of a machine integer, `k` bytes wide:
the memory image that `memcpy` copies. -/
def encodeBytes : Nat → Nat → List Nat
  | 0, _ => []
  | k + 1, n => n % 256 :: encodeBytes k (n / 256)

/-- Recombine little-endian bytes into a Nat. -/
def decodeBytes : List Nat → Nat
  | [] => 0
  | b :: bs => b + 256 * decodeBytes bs

/-- The 8 bytes `memcpy` writes for the ssize_t id (two's-complement image). -/
def encode_id (z : Int) : List Nat := encodeBytes ID_SIZE (z.emod (2 ^ 64)).toNat

/-- Reading 8 bytes back as a signed 64-bit value. -/
def decode_id (bs : List Nat) : Int :=
  let n := decodeBytes bs
  if n < 2 ^ 63 then (n : Int) else (n : Int) - 2 ^ 64

/-- `strncpy(dst, src, n)` writes exactly `n` bytes: the source string
(truncated at `n`) followed by NUL padding. -/
def strncpyBytes (n : Nat) (s : List Nat) : List Nat := (s ++ List.replicate n 0).take n

/-- The value of a C string field stored in a byte buffer: bytes up to the
first NUL. -/
def cstring (bs : List Nat) : List Nat := bs.takeWhile (fun b => b != 0)

/-- serialize_row, src/main.c lines 77-82: id bytes, then the username field
(33 bytes, NUL padded), then the email field (256 bytes, NUL padded). -/
def serialize_row (r : Row) : List Nat :=
  encode_id r.id ++ strncpyBytes USERNAME_SIZE r.username ++ strncpyBytes EMAIL_SIZE r.email

/-- deserialize_row, src/main.c lines 84-89: memcpy each field back out of the
source buffer; the resulting field values are read at the same offsets. -/
def deserialize_row (src : List Nat) : Row :=
  { id := decode_id (src.take ID_SIZE)
  , username := cstring ((src.drop USERNAME_OFFSET).take USERNAME_SIZE)
  , email := cstring ((src.drop EMAIL_OFFSET).take EMAIL_SIZE) }

/-! Pages and the node layout accessors (src/main.c lines 238-276). -/

abbrev Page := Nat → Nat

/-- Read a 4-byte little-endian unsigned value at offset `o`. -/
def read32 (p : Page) (o : Nat) : Nat :=
  p o % 256 + 256 * (p (o + 1) % 256) + 65536 * (p (o + 2) % 256) +
    16777216 * (p (o + 3) % 256)

/-- Store a 4-byte little-endian value at offset `o`. -/
def write32 (p : Page) (o v : Nat) : Page := fun j =>
  if j = o then v % 256
  else if j = o + 1 then v / 256 % 256
  else if j = o + 2 then v / 65536 % 256
  else if j = o + 3 then v / 16777216 % 256
  else p j

/-- Read a 4-byte value as a signed C int. -/
def readInt32 (p : Page) (o : Nat) : Int :=
  let n := read32 p o
  if n < 2 ^ 31 then (n : Int) else (n : Int) - 2 ^ 32

/-- Truncation of a wider integer to a signed C int
(`int key_to_insert = row_to_insert->id`). -/
def toInt32 (z : Int) : Int :=
  let n := (z.emod (2 ^ 32)).toNat
  if n < 2 ^ 31 then (n : Int) else (n : Int) - 2 ^ 32

/-- leaf_node_cell, src/main.c line 240, transcribed exactly:
`node + LEAF_NODE_HEADER_SIZE + cell_num + LEAF_NODE_CELL_SIZE`
(the source adds `cell_num` and `LEAF_NODE_CELL_SIZE` instead of
multiplying them). -/
def leaf_node_cell_offset (cell_num : Nat) : Nat :=
  LEAF_NODE_HEADER_SIZE + cell_num + LEAF_NODE_CELL_SIZE

/-- leaf_node_key, src/main.c lines 248-251: the key sits at the start of the
cell. -/
def leaf_node_key_offset (cell_num : Nat) : Nat := leaf_node_cell_offset cell_num

/-- leaf_node_value, src/main.c lines 253-256: the row bytes follow the key. -/
def leaf_node_value_offset (cell_num : Nat) : Nat :=
  leaf_node_cell_offset cell_num + LEAF_NODE_KEY_SIZE

/-- leaf_node_num_cells, src/main.c lines 243-246. -/
def num_cells (node : Page) : Nat := read32 node LEAF_NODE_NUM_CELLS_OFFSET

/-- The key of cell `cell_num` as the code reads it (a C int). -/
def key_at (node : Page) (cell_num : Nat) : Int := readInt32 node (leaf_node_key_offset cell_num)

/-- get_node_type, src/main.c lines 265-270 (NODE_INTERNAL = 0, NODE_LEAF = 1). -/
def node_type (node : Page) : Nat := read32 node NODE_TYPE_OFFSET

/-- initialize_leaf_node, src/main.c lines 272-276: set the type to leaf and
zero the cell count; all other bytes of the page are untouched. -/
def init_leaf_node (node : Page) : Page :=
  write32 (write32 node NODE_TYPE_OFFSET 1) LEAF_NODE_NUM_CELLS_OFFSET 0

/-! The binary search of leaf_node_find (src/main.c lines 360-396).  The while
loop shrinks the interval [min_index, one_past_max_index) every iteration, so
an initial interval of width `gas` finishes within `gas` steps; `lnfAux` makes
that fuel explicit and returns `min_index` when the interval is exhausted. -/

def lnfAux (keyAt : Nat → Int) (key : Int) : Nat → Nat → Nat → Nat
  | 0, lo, _ => lo
  | gas + 1, lo, hi =>
    if lo < hi then
      if key = keyAt ((lo + hi) / 2) then (lo + hi) / 2
      else if key < keyAt ((lo + hi) / 2) then lnfAux keyAt key gas lo ((lo + hi) / 2)
      else lnfAux keyAt key gas ((lo + hi) / 2 + 1) hi
    else lo

/-- The binary search over slots [0, numCells), parameterized by the key
accessor. -/
def leaf_binary_search (keyAt : Nat → Int) (key : Int) (numCells : Nat) : Nat :=
  lnfAux keyAt key numCells 0 numCells

/-- leaf_node_find, src/main.c lines 360-396: binary search over the node's
cells using the key accessor `key_at`; returns the cursor's cell_num. -/
def leaf_node_find (node : Page) (key : Int) : Nat :=
  leaf_binary_search (fun i => key_at node i) key (num_cells node)

/-! The execute paths (src/main.c lines 688-730).  The table's root leaf is
page 0 and stays resident after db_open, so the table state threaded through
them is the root page's bytes. -/

inductive ExecuteResult where
  | EXECUTE_SUCCESS
  | EXECUTE_DUPLICATE_KEY
  | EXECUTE_TABLE_FULL
deriving DecidableEq

/-- execute_insert, src/main.c lines 688-713.  Reads the cell count, rejects a
full leaf, locates the cursor via table_find (which exits fatally — `none` —
on an internal root, lines 417-431), reports a duplicate when the cursor lands
on an equal key, and otherwise returns EXECUTE_SUCCESS.  The source never
calls leaf_node_insert, so the returned page is the input page in every
branch. -/
def execute_insert (row_to_insert : Row) (root : Page) : Option (ExecuteResult × Page) :=
  let node := root
  let numCells := num_cells node
  if numCells ≥ LEAF_NODE_MAX_CELLS then some (.EXECUTE_TABLE_FULL, root)
  else
    let key_to_insert : Int := toInt32 row_to_insert.id
    if node_type root = 1 then
      let cell_num := leaf_node_find root key_to_insert
      if cell_num < numCells then
        if key_at node cell_num = key_to_insert then some (.EXECUTE_DUPLICATE_KEY, root)
        else some (.EXECUTE_SUCCESS, root)
      else some (.EXECUTE_SUCCESS, root)
    else none

/-- cursor_advance, src/main.c lines 433-443: bump cell_num and raise
end_of_table once it reaches the leaf's cell count.  (execute_select's loop
body at line 724 mentions this function without calling it.) -/
def cursor_advance (node : Page) (cell_num : Nat) (end_of_table : Bool) : Nat × Bool :=
  let c := cell_num + 1
  (c, end_of_table || decide (c ≥ num_cells node))

/-- cursor_value / the row bytes at a cell (src/main.c lines 445-451). -/
def leaf_value_bytes (node : Page) (cell_num : Nat) : List Nat :=
  (List.range LEAF_NODE_VALUE_SIZE).map (fun j => node (leaf_node_value_offset cell_num + j) % 256)

/-- The while loop of execute_select (src/main.c lines 720-725) with explicit
fuel.  Each iteration deserializes the row under the cursor; the statement
`cursor_advance;` at line 724 evaluates the function designator without
calling it, so cell_num and end_of_table never change between iterations. -/
def selectLoop (node : Page) (cell_num : Nat) (acc : List Row) : Bool → Nat → Option (List Row)
  | true, _ => some acc
  | false, 0 => none
  | false, fuel + 1 =>
    selectLoop node cell_num (acc ++ [deserialize_row (leaf_value_bytes node cell_num)]) false fuel

/-- execute_select, src/main.c lines 715-730: table_start (lines 398-411) puts
the cursor at cell 0 with end_of_table set when the root leaf is empty, then
the loop runs. -/
def execute_select (root : Page) (fuel : Nat) : Option (List Row) :=
  let numCells := num_cells root
  selectLoop root 0 [] (decide (numCells = 0)) fuel

/-- How many cells of the leaf carry the given key (for stating the duplicate
scenarios). -/
def cells_with_key (node : Page) (key : Int) : Nat :=
  ((List.range (num_cells node)).filter (fun i => key_at node i == key)).length

/-! Concrete states and rows for the scenario theorems. -/

def zero_page : Page := fun _ => 0

/-- Page 0 of a freshly created database file: db_open (src/main.c lines
295-311) fetches page 0 and initializes it as an empty leaf. -/
def fresh_root : Page := init_leaf_node zero_page

/-- The row of the spec scenario: insert (1, "a", "a@x"). -/
def row_a : Row := ⟨1, [97], [97, 64, 120]⟩

/-- The row of the duplicate-key scenario: id 5. -/
def row_e : Row := ⟨5, [101], [101, 64, 120]⟩

/-- A root leaf whose cell count is 1 (as it would be after one genuine
insert, or after loading a one-row file). -/
def one_cell_node : Page := write32 fresh_root LEAF_NODE_NUM_CELLS_OFFSET 1

/-- A leaf page holding two cells whose keys, as read through the source's
key accessor, are strictly ascending (0 then 16777216). -/
def demo_node : Page := fun j =>
  if j = LEAF_NODE_NUM_CELLS_OFFSET then 2 else if j = 321 then 1 else 0

/-! The Pager (src/main.c lines 57-63, 91-168). -/

/-- The bounds check at the top of get_page, src/main.c lines 129-134:
the process dies when `page_num > TABLE_MAX_PAGES` (note: strictly greater,
although the page array has exactly TABLE_MAX_PAGES slots). -/
def get_page_fatal (page_num : Nat) : Bool := decide (page_num > TABLE_MAX_PAGES)

/-- Indexing `pager->pages[page_num]` is in bounds exactly when the page
number is below the array length TABLE_MAX_PAGES. -/
def pages_index_ok (page_num : Nat) : Prop := page_num < TABLE_MAX_PAGES

/-- The page count the cache-miss path recomputes from the file length
(src/main.c lines 141-147), counting a trailing partial page. -/
def disk_num_pages (file_length : Nat) : Nat :=
  file_length / PAGE_SIZE + (if file_length % PAGE_SIZE ≠ 0 then 1 else 0)

/-- The buffer contents get_page produces on a cache miss (src/main.c lines
136-161): `malloc` yields a buffer with arbitrary initial contents `alloc`;
when the page number is within the known page count, `read` fills the first
`min PAGE_SIZE (file_length - offset)` bytes from the file and leaves the
rest of the buffer as allocated. -/
def get_page_miss (file_length : Nat) (file : Nat → Nat) (alloc : Page) (page_num : Nat) :
    Page := fun j =>
  if page_num ≤ disk_num_pages file_length then
    if j < min PAGE_SIZE (file_length - page_num * PAGE_SIZE) then
      file (page_num * PAGE_SIZE + j)
    else alloc j
  else alloc j

/-- The bookkeeping state of a Pager: its num_pages field and the set of
resident page numbers (`pages[i] != NULL`). -/
structure PagerSt where
  numPages : Nat
  resident : List Nat
deriving DecidableEq

/-- pager_open, src/main.c lines 91-125: num_pages is the file length divided
by the page size, no page resident; a file length that is not a whole number
of pages is fatal. -/
def pager_open_st (file_length : Nat) : Option PagerSt :=
  if file_length % PAGE_SIZE ≠ 0 then none
  else some ⟨file_length / PAGE_SIZE, []⟩

/-- The effect of get_page (src/main.c lines 127-168) on the Pager
bookkeeping: fatal above TABLE_MAX_PAGES; a hit changes nothing; a miss makes
the page resident and raises num_pages to page_num + 1 when page_num is a new
high-water mark (lines 161-165). -/
def get_page_st (s : PagerSt) (page_num : Nat) : Option PagerSt :=
  if page_num > TABLE_MAX_PAGES then none
  else if page_num ∈ s.resident then some s
  else some ⟨if page_num ≥ s.numPages then page_num + 1 else s.numPages,
    page_num :: s.resident⟩

/-- Run a sequence of get_page calls; `none` once one is fatal. -/
def run_fetches : PagerSt → List Nat → Option PagerSt
  | s, [] => some s
  | s, p :: ps =>
    match get_page_st s p with
    | none => none
    | some s' => run_fetches s' ps

/-- The resident pages are always below num_pages (the induction invariant
behind the high-water property). -/
def resident_inv (s : PagerSt) : Prop := ∀ q ∈ s.resident, q + 1 ≤ s.numPages

/-- serialize_row writing into a page at destination offset `d` (the call
`serialize_row(value, leaf_node_value(node, cell_num))` passes a pointer into
the page): the ROW_SIZE bytes from `d` get the serialized image, every other
byte keeps its old value. -/
def serialize_row_into (r : Row) (page : Page) (d : Nat) : Page := fun j =>
  if d ≤ j ∧ j < d + ROW_SIZE then (serialize_row r).getD (j - d) 0 else page j

end DB

namespace DB

/-! Codec lemmas. -/

theorem encodeBytes_length (k : Nat) : ∀ n, (encodeBytes k n).length = k := by
  induction k with
  | zero => intro n; rfl
  | succ k ih => intro n; simp [encodeBytes, ih]

theorem decodeBytes_encodeBytes (k : Nat) :
    ∀ n, n < 256 ^ k → decodeBytes (encodeBytes k n) = n := by
  induction k with
  | zero =>
    intro n h
    have hn : n = 0 := by simpa using h
    subst hn; rfl
  | succ k ih =>
    intro n h
    have h' : n / 256 < 256 ^ k := by
      rw [Nat.div_lt_iff_lt_mul (by norm_num)]
      calc n < 256 ^ (k + 1) := h
        _ = 256 ^ k * 256 := by rw [pow_succ]
    simp only [encodeBytes, decodeBytes]
    rw [ih _ h']
    omega

theorem strncpyBytes_length (n : Nat) (s : List Nat) : (strncpyBytes n s).length = n := by
  simp [strncpyBytes]

theorem takeWhile_ne_append (u v : List Nat) (h : ∀ b ∈ u, b ≠ 0) :
    (u ++ v).takeWhile (fun b => b != 0) = u ++ v.takeWhile (fun b => b != 0) := by
  induction u with
  | nil => simp
  | cons a u ih =>
    have ha : (a != 0) = true := by
      have := h a (by simp)
      simpa using this
    simp only [List.cons_append, List.takeWhile_cons, ha, if_true]
    rw [ih (fun b hb => h b (by simp [hb]))]

theorem takeWhile_replicate_zero (m : Nat) :
    (List.replicate m (0 : Nat)).takeWhile (fun b => b != 0) = [] := by
  cases m with
  | zero => rfl
  | succ m => simp [List.replicate_succ, List.takeWhile_cons]

theorem cstring_strncpy (w : Nat) (s : List Nat) (hlen : s.length ≤ w)
    (h0 : ∀ b ∈ s, b ≠ 0) : cstring (strncpyBytes w s) = s := by
  unfold cstring strncpyBytes
  rw [List.take_append_eq_append_take, List.take_of_length_le hlen, List.take_replicate]
  rw [takeWhile_ne_append _ _ h0, takeWhile_replicate_zero]
  simp

theorem decode_encode_id (z : Int) (h0 : 0 ≤ z) (h1 : z < 2 ^ 63) :
    decode_id (encode_id z) = z := by
  have e1 : (2 : Int) ^ 64 = 18446744073709551616 := by norm_num
  have e2 : (2 : Int) ^ 63 = 9223372036854775808 := by norm_num
  have e3 : (256 : Nat) ^ 8 = 18446744073709551616 := by norm_num
  have e4 : (2 : Nat) ^ 63 = 9223372036854775808 := by norm_num
  rw [e2] at h1
  unfold encode_id decode_id
  rw [e1] at *
  have hz : z.emod 18446744073709551616 = z := Int.emod_eq_of_lt h0 (by omega)
  rw [hz]
  have hn : z.toNat < 256 ^ 8 := by rw [e3]; omega
  have hdec : decodeBytes (encodeBytes ID_SIZE z.toNat) = z.toNat := by
    rw [show ID_SIZE = 8 from rfl]
    exact decodeBytes_encodeBytes 8 _ hn
  simp only [hdec]
  rw [if_pos (by rw [e4]; omega : z.toNat < 2 ^ 63)]
  exact Int.toNat_of_nonneg h0

/-- C4: for every Row whose id is non-negative (and representable in the
ssize_t field) and whose username and email respect the 32- and 255-byte
maxima, deserializing the bytes produced by serialize_row yields exactly the
original id, username and email values. -/
theorem serialize_then_deserialize (r : Row) (hid0 : 0 ≤ r.id) (hid1 : r.id < 2 ^ 63)
    (hu : r.username.length ≤ COLUMN_USERNAME_SIZE) (hu0 : ∀ b ∈ r.username, b ≠ 0)
    (he : r.email.length ≤ COLUMN_EMAIL_SIZE) (he0 : ∀ b ∈ r.email, b ≠ 0) :
    deserialize_row (serialize_row r) = r := by
  obtain ⟨z, u, e⟩ := r
  simp only at hid0 hid1 hu hu0 he he0
  have hA : (encode_id z).length = 8 := by
    unfold encode_id; rw [encodeBytes_length]; rfl
  have hB : (strncpyBytes USERNAME_SIZE u).length = 33 := by rw [strncpyBytes_length]; rfl
  have hC : (strncpyBytes EMAIL_SIZE e).length = 256 := by rw [strncpyBytes_length]; rfl
  have hAB : (encode_id z ++ strncpyBytes USERNAME_SIZE u).length = 41 := by
    rw [List.length_append, hA, hB]
  unfold serialize_row deserialize_row
  simp only [Row.mk.injEq]
  refine ⟨?_, ?_, ?_⟩
  · rw [List.append_assoc, List.take_left' (show (encode_id z).length = ID_SIZE from hA)]
    exact decode_encode_id z hid0 hid1
  · rw [List.append_assoc,
      List.drop_left' (show (encode_id z).length = USERNAME_OFFSET from hA),
      List.take_left' (show (strncpyBytes USERNAME_SIZE u).length = USERNAME_SIZE from hB)]
    exact cstring_strncpy USERNAME_SIZE u (le_trans hu (by norm_num [USERNAME_SIZE,
      COLUMN_USERNAME_SIZE])) hu0
  · rw [List.drop_left'
      (show (encode_id z ++ strncpyBytes USERNAME_SIZE u).length = EMAIL_OFFSET from hAB),
      List.take_of_length_le (le_of_eq (show (strncpyBytes EMAIL_SIZE e).length = EMAIL_SIZE
        from hC))]
    exact cstring_strncpy EMAIL_SIZE e (le_trans he (by norm_num [EMAIL_SIZE,
      COLUMN_EMAIL_SIZE])) he0

/-- Witness for C4 at the concrete row (1, "a", "a@x"). -/
theorem serialize_then_deserialize_witness : deserialize_row (serialize_row row_a) = row_a :=
  serialize_then_deserialize row_a (by decide) (by decide) (by decide) (by decide)
    (by decide) (by decide)

/-- C10: serialize_row writes exactly the ROW_SIZE = 297 bytes
(8 id + 33 username + 256 email) starting at its destination offset; every
byte outside that range keeps its previous value. -/
theorem serialize_row_frame :
    (ROW_SIZE = 297 ∧ ID_SIZE = 8 ∧ USERNAME_SIZE = 33 ∧ EMAIL_SIZE = 256) ∧
    (∀ r : Row, (serialize_row r).length = ROW_SIZE) ∧
    (∀ (r : Row) (page : Page) (d j : Nat), j < d ∨ d + ROW_SIZE ≤ j →
      serialize_row_into r page d j = page j) := by
  refine ⟨by decide, ?_, ?_⟩
  · intro r
    unfold serialize_row
    rw [List.length_append, List.length_append, strncpyBytes_length, strncpyBytes_length]
    unfold encode_id
    rw [encodeBytes_length]
    rfl
  · intro r page d j h
    unfold serialize_row_into
    have hc : ¬ (d ≤ j ∧ j < d + ROW_SIZE) := by
      rcases h with h | h
      · intro hc; omega
      · intro hc; omega
    rw [if_neg hc]

/-- Witness for C10: writing a row at offset 0 leaves byte 300 untouched. -/
theorem serialize_row_frame_witness :
    serialize_row_into row_a zero_page 0 300 = zero_page 300 :=
  serialize_row_frame.2.2 row_a zero_page 0 300 (Or.inr (by decide))

end DB

namespace DB

/-- Invariant-style specification of the leaf binary search loop: starting
from an interval [lo, hi) of width at most `gas` inside the sorted slot range
[0, n), the returned slot stays inside the interval, every slot to its left
carries a key below the search key, and either it carries the search key
itself or every slot from it to `hi` carries a larger key. -/
theorem lnfAux_spec (keyAt : Nat → Int) (key : Int) (n : Nat)
    (hs : ∀ i, i < n → ∀ j, j < n → i < j → keyAt i < keyAt j) :
    ∀ gas lo hi, hi - lo ≤ gas → lo ≤ hi → hi ≤ n →
      lo ≤ lnfAux keyAt key gas lo hi ∧ lnfAux keyAt key gas lo hi ≤ hi ∧
      (∀ j, lo ≤ j → j < lnfAux keyAt key gas lo hi → keyAt j < key) ∧
      ((lnfAux keyAt key gas lo hi < hi ∧ keyAt (lnfAux keyAt key gas lo hi) = key) ∨
        (∀ j, lnfAux keyAt key gas lo hi ≤ j → j < hi → key < keyAt j)) := by
  intro gas
  induction gas with
  | zero =>
    intro lo hi hgas hlh hhn
    have hlh' : lo = hi := by omega
    subst hlh'
    simp only [lnfAux]
    exact ⟨le_refl _, le_refl _, fun j h1 h2 => absurd h2 (by omega),
      Or.inr (fun j h1 h2 => absurd h2 (by omega))⟩
  | succ gas ih =>
    intro lo hi hgas hlh hhn
    by_cases hlt : lo < hi
    · have hm1 : lo ≤ (lo + hi) / 2 := by omega
      have hm2 : (lo + hi) / 2 < hi := by omega
      simp only [lnfAux, if_pos hlt]
      by_cases heq : key = keyAt ((lo + hi) / 2)
      · rw [if_pos heq]
        refine ⟨hm1, le_of_lt hm2, ?_, Or.inl ⟨hm2, heq.symm⟩⟩
        intro j hj1 hj2
        have hlt' := hs j (by omega) ((lo + hi) / 2) (by omega) hj2
        rw [heq]
        exact hlt'
      · rw [if_neg heq]
        by_cases hklt : key < keyAt ((lo + hi) / 2)
        · rw [if_pos hklt]
          obtain ⟨h1, h2, h3, h4⟩ := ih lo ((lo + hi) / 2) (by omega) (by omega) (by omega)
          refine ⟨h1, by omega, h3, ?_⟩
          rcases h4 with h4 | h4
          · exact Or.inl ⟨by omega, h4.2⟩
          · refine Or.inr (fun j hj1 hj2 => ?_)
            by_cases hjm : j < (lo + hi) / 2
            · exact h4 j hj1 hjm
            · have hj3 : (lo + hi) / 2 ≤ j := by omega
              rcases Nat.eq_or_lt_of_le hj3 with h' | h'
              · rw [← h']
                exact hklt
              · exact lt_trans hklt (hs _ (by omega) _ (by omega) h')
        · rw [if_neg hklt]
          have hkgt : keyAt ((lo + hi) / 2) < key :=
            lt_of_le_of_ne (not_lt.mp hklt) (fun h => heq h.symm)
          obtain ⟨h1, h2, h3, h4⟩ := ih ((lo + hi) / 2 + 1) hi (by omega) (by omega) hhn
          refine ⟨by omega, h2, ?_, h4⟩
          intro j hj1 hj2
          by_cases hjm : (lo + hi) / 2 + 1 ≤ j
          · exact h3 j hjm hj2
          · have hj3 : j ≤ (lo + hi) / 2 := by omega
            rcases Nat.eq_or_lt_of_le hj3 with h' | h'
            · rw [h']
              exact hkgt
            · exact lt_trans (hs _ (by omega) _ (by omega) h') hkgt
    · simp only [lnfAux, if_neg hlt]
      exact ⟨le_refl _, by omega, fun j h1 h2 => absurd h2 (by omega),
        Or.inr (fun j h1 h2 => absurd (lt_of_le_of_lt h1 h2) hlt)⟩

/-- C5: on a leaf whose keys — as read through the node's key accessor — are
strictly ascending, leaf_node_find returns exactly the slot of a present
search key, and for an absent key the lower-bound slot: every slot below it
holds a smaller key and every slot at or above it (within the cell count)
holds a larger key; the result never exceeds the cell count. -/
theorem leaf_node_find_lower_bound (node : Page) (key : Int)
    (hs : ∀ i, i < num_cells node → ∀ j, j < num_cells node → i < j →
      key_at node i < key_at node j) :
    (∀ i, i < num_cells node → key_at node i = key → leaf_node_find node key = i) ∧
    leaf_node_find node key ≤ num_cells node ∧
    (∀ j, j < leaf_node_find node key → key_at node j < key) ∧
    ((∀ i, i < num_cells node → key_at node i ≠ key) →
      ∀ j, leaf_node_find node key ≤ j → j < num_cells node → key < key_at node j) := by
  obtain ⟨h1, h2, h3, h4⟩ := lnfAux_spec (fun i => key_at node i) key (num_cells node) hs
    (num_cells node) 0 (num_cells node) (by omega) (by omega) (le_refl _)
  have hfind : leaf_node_find node key =
      lnfAux (fun i => key_at node i) key (num_cells node) 0 (num_cells node) := rfl
  rw [hfind]
  refine ⟨?_, h2, fun j hj => h3 j (Nat.zero_le j) hj, ?_⟩
  · intro i hi hkey
    by_cases hir : i < lnfAux (fun i => key_at node i) key (num_cells node) 0 (num_cells node)
    · have := h3 i (Nat.zero_le i) hir
      rw [hkey] at this
      exact absurd this (lt_irrefl key)
    · rcases h4 with ⟨hrn, hkr⟩ | h4
      · by_cases hri :
          lnfAux (fun i => key_at node i) key (num_cells node) 0 (num_cells node) < i
        · have hlt' := hs _ hrn i hi hri
          rw [hkr, hkey] at hlt'
          exact absurd hlt' (lt_irrefl key)
        · omega
      · have := h4 i (by omega) hi
        rw [hkey] at this
        exact absurd this (lt_irrefl key)
  · intro habs j hj1 hj2
    rcases h4 with ⟨hrn, hkr⟩ | h4
    · exact absurd hkr (habs _ hrn)
    · exact h4 j hj1 hj2

/-- Witness for C5 on the concrete two-cell leaf `demo_node` with search
key 5, which is absent and lies between the two stored keys. -/
theorem leaf_node_find_lower_bound_witness :
    (∀ i, i < num_cells demo_node → key_at demo_node i = (5 : Int) →
      leaf_node_find demo_node 5 = i) ∧
    leaf_node_find demo_node 5 ≤ num_cells demo_node ∧
    (∀ j, j < leaf_node_find demo_node 5 → key_at demo_node j < (5 : Int)) ∧
    ((∀ i, i < num_cells demo_node → key_at demo_node i ≠ (5 : Int)) →
      ∀ j, leaf_node_find demo_node 5 ≤ j → j < num_cells demo_node →
        (5 : Int) < key_at demo_node j) :=
  leaf_node_find_lower_bound demo_node 5 (by decide)

end DB

namespace DB

/-! Pager bookkeeping lemmas. -/

theorem get_page_st_mono (s : PagerSt) (p : Nat) (s' : PagerSt)
    (h : get_page_st s p = some s') : s.numPages ≤ s'.numPages := by
  unfold get_page_st at h
  by_cases h1 : p > TABLE_MAX_PAGES
  · rw [if_pos h1] at h
    exact Option.noConfusion h
  · rw [if_neg h1] at h
    by_cases h2 : p ∈ s.resident
    · rw [if_pos h2, Option.some.injEq] at h
      subst h
      exact le_refl _
    · rw [if_neg h2, Option.some.injEq] at h
      subst h
      dsimp only
      by_cases h3 : p ≥ s.numPages
      · rw [if_pos h3]
        omega
      · rw [if_neg h3]

theorem get_page_st_inv (s : PagerSt) (p : Nat) (s' : PagerSt) (hI : resident_inv s)
    (h : get_page_st s p = some s') : resident_inv s' := by
  unfold get_page_st at h
  by_cases h1 : p > TABLE_MAX_PAGES
  · rw [if_pos h1] at h
    exact Option.noConfusion h
  · rw [if_neg h1] at h
    by_cases h2 : p ∈ s.resident
    · rw [if_pos h2, Option.some.injEq] at h
      subst h
      exact hI
    · rw [if_neg h2, Option.some.injEq] at h
      subst h
      intro q hq
      dsimp only at hq ⊢
      rcases List.mem_cons.mp hq with rfl | hq'
      · by_cases h3 : q ≥ s.numPages
        · rw [if_pos h3]
        · rw [if_neg h3]
          omega
      · have hle := hI q hq'
        by_cases h3 : p ≥ s.numPages
        · rw [if_pos h3]
          omega
        · rw [if_neg h3]
          omega

theorem get_page_st_fetched (s : PagerSt) (p : Nat) (s' : PagerSt) (hI : resident_inv s)
    (h : get_page_st s p = some s') : p + 1 ≤ s'.numPages := by
  unfold get_page_st at h
  by_cases h1 : p > TABLE_MAX_PAGES
  · rw [if_pos h1] at h
    exact Option.noConfusion h
  · rw [if_neg h1] at h
    by_cases h2 : p ∈ s.resident
    · rw [if_pos h2, Option.some.injEq] at h
      subst h
      exact hI p h2
    · rw [if_neg h2, Option.some.injEq] at h
      subst h
      dsimp only
      by_cases h3 : p ≥ s.numPages
      · rw [if_pos h3]
      · rw [if_neg h3]
        omega

theorem run_fetches_mono (ps : List Nat) : ∀ s s', run_fetches s ps = some s' →
    s.numPages ≤ s'.numPages := by
  induction ps with
  | nil =>
    intro s s' h
    simp only [run_fetches, Option.some.injEq] at h
    subst h
    exact le_refl _
  | cons p ps ih =>
    intro s s' h
    cases hg : get_page_st s p with
    | none =>
      simp only [run_fetches, hg] at h
      exact Option.noConfusion h
    | some s1 =>
      simp only [run_fetches, hg] at h
      exact le_trans (get_page_st_mono s p s1 hg) (ih s1 s' h)

theorem run_fetches_high_water (ps : List Nat) : ∀ s s', resident_inv s →
    run_fetches s ps = some s' → ∀ p ∈ ps, p + 1 ≤ s'.numPages := by
  induction ps with
  | nil =>
    intro s s' _ _ p hp
    exact absurd hp (List.not_mem_nil p)
  | cons q ps ih =>
    intro s s' hI h p hp
    cases hg : get_page_st s q with
    | none =>
      simp only [run_fetches, hg] at h
      exact Option.noConfusion h
    | some s1 =>
      simp only [run_fetches, hg] at h
      rcases List.mem_cons.mp hp with rfl | hp'
      · exact le_trans (get_page_st_fetched s p s1 hI hg) (run_fetches_mono ps s1 s' h)
      · exact ih s1 s' (get_page_st_inv s q s1 hI hg) h p hp'

/-- C9: across any sequence of get_page calls on an open Pager, num_pages
never decreases, and after the sequence it is at least 1 plus every page
number fetched. -/
theorem pager_num_pages_invariant :
    (∀ (s : PagerSt) (p : Nat) (s' : PagerSt), get_page_st s p = some s' →
      s.numPages ≤ s'.numPages) ∧
    (∀ (file_length : Nat) (s0 : PagerSt) (ps : List Nat) (s' : PagerSt),
      pager_open_st file_length = some s0 → run_fetches s0 ps = some s' →
      ∀ p ∈ ps, p + 1 ≤ s'.numPages) := by
  refine ⟨get_page_st_mono, ?_⟩
  intro fl s0 ps s' hopen hrun
  have hI : resident_inv s0 := by
    unfold pager_open_st at hopen
    by_cases h1 : fl % PAGE_SIZE ≠ 0
    · rw [if_pos h1] at hopen
      exact Option.noConfusion hopen
    · rw [if_neg h1, Option.some.injEq] at hopen
      subst hopen
      intro q hq
      exact absurd hq (List.not_mem_nil q)
  exact run_fetches_high_water ps s0 s' hI hrun

/-- Witness for C9: opening an empty file and fetching pages 0, 2, 1 ends
with num_pages = 3, at least one above every fetched page number. -/
theorem pager_num_pages_invariant_witness :
    ∀ p ∈ [0, 2, 1], p + 1 ≤ (PagerSt.mk 3 [1, 2, 0]).numPages :=
  pager_num_pages_invariant.2 0 (PagerSt.mk 0 []) [0, 2, 1] (PagerSt.mk 3 [1, 2, 0])
    (by decide) (by decide)

/-- C1 (code_bug): execute_insert as written never mutates the tree — in
every non-fatal branch it hands back the root page unchanged — and on a fresh
table the scenario insert of (1, "a", "a@x") reports EXECUTE_SUCCESS while
the leaf's cell count stays 0 and no cell carries the key. -/
theorem execute_insert_never_mutates :
    (∀ (r : Row) (root : Page) (p : ExecuteResult × Page),
      execute_insert r root = some p → p.2 = root) ∧
    execute_insert row_a fresh_root = some (ExecuteResult.EXECUTE_SUCCESS, fresh_root) ∧
    num_cells fresh_root = 0 ∧
    cells_with_key fresh_root (toInt32 row_a.id) = 0 := by
  refine ⟨?_, rfl, rfl, rfl⟩
  intro r root p h
  simp only [execute_insert] at h
  split_ifs at h <;>
    first
    | exact Option.noConfusion h
    | (rw [Option.some.injEq] at h; subst h; rfl)

/-- Witness for C1: the no-mutation statement applied at the scenario input. -/
theorem execute_insert_never_mutates_witness :
    ((ExecuteResult.EXECUTE_SUCCESS, fresh_root) : ExecuteResult × Page).2 = fresh_root :=
  execute_insert_never_mutates.1 row_a fresh_root (ExecuteResult.EXECUTE_SUCCESS, fresh_root)
    rfl

theorem selectLoop_stuck (node : Page) : ∀ (fuel cell : Nat) (acc : List Row),
    selectLoop node cell acc false fuel = none := by
  intro fuel
  induction fuel with
  | zero => intro cell acc; rfl
  | succ fuel ih =>
    intro cell acc
    exact ih cell _

/-- C2 (code_bug): after the scenario's "successful" insert the scan yields
the empty sequence rather than the inserted row, and on any table whose root
leaf is non-empty the select loop never reaches end-of-table (its cursor is
never advanced), whatever fuel it is given. -/
theorem execute_select_never_advances :
    (execute_insert row_a fresh_root = some (ExecuteResult.EXECUTE_SUCCESS, fresh_root) ∧
      ∀ fuel, execute_select fresh_root fuel = some []) ∧
    (∀ (node : Page) (fuel : Nat), num_cells node ≠ 0 → execute_select node fuel = none) := by
  refine ⟨⟨rfl, fun fuel => by cases fuel <;> rfl⟩, ?_⟩
  intro node fuel h
  show selectLoop node 0 [] (decide (num_cells node = 0)) fuel = none
  rw [decide_eq_false h]
  exact selectLoop_stuck node fuel 0 []

/-- Witness for C2: on a one-cell root leaf the scan runs out of any fuel. -/
theorem execute_select_never_advances_witness :
    execute_select one_cell_node 5 = none :=
  execute_select_never_advances.2 one_cell_node 5 (by decide)

/-- C3 (code_bug): inserting id 5 twice into a fresh table — the second
insert returns EXECUTE_SUCCESS, not EXECUTE_DUPLICATE_KEY, and no cell at all
holds key 5 afterwards (the first insert wrote nothing). -/
theorem duplicate_insert_not_detected :
    execute_insert row_e fresh_root = some (ExecuteResult.EXECUTE_SUCCESS, fresh_root) ∧
    (execute_insert row_e fresh_root).bind (fun p => execute_insert row_e p.2) =
      some (ExecuteResult.EXECUTE_SUCCESS, fresh_root) ∧
    cells_with_key fresh_root (toInt32 row_e.id) = 0 :=
  ⟨rfl, rfl, rfl⟩

/-- C6 (code_bug): the cell accessor of the source puts cell 0 at byte 317
instead of LEAF_NODE_HEADER_SIZE = 16, moves by one byte per slot instead of
by LEAF_NODE_CELL_SIZE = 301, so consecutive slots overlap and the address of
cell 2 differs from the packed-array address. -/
theorem leaf_node_cell_not_packed :
    leaf_node_cell_offset 0 = 317 ∧
    LEAF_NODE_HEADER_SIZE + 0 * LEAF_NODE_CELL_SIZE = 16 ∧
    leaf_node_cell_offset 1 = leaf_node_cell_offset 0 + 1 ∧
    leaf_node_cell_offset 0 + LEAF_NODE_CELL_SIZE > leaf_node_cell_offset 1 ∧
    leaf_node_cell_offset 2 ≠ LEAF_NODE_HEADER_SIZE + 2 * LEAF_NODE_CELL_SIZE := by
  decide

/-- C7 (code_bug): get_page's guard kills the process for every page number
strictly above TABLE_MAX_PAGES, but it accepts page number TABLE_MAX_PAGES
itself, which is not a valid index into the TABLE_MAX_PAGES-slot page
array — the out-of-bounds access is reachable. -/
theorem get_page_accepts_page_at_capacity :
    (∀ k : Nat, get_page_fatal (TABLE_MAX_PAGES + 1 + k) = true) ∧
    get_page_fatal TABLE_MAX_PAGES = false ∧
    ¬ pages_index_ok TABLE_MAX_PAGES := by
  refine ⟨?_, rfl, ?_⟩
  · intro k
    unfold get_page_fatal
    rw [decide_eq_true_eq]
    omega
  · unfold pages_index_ok
    omega

/-- C8 counterexample: with file length 0 (page 0 is past end-of-file) and a
malloc'd buffer whose bytes happen to be 7, get_page returns byte 7 at
offset 0 — the claim that every byte not filled by the read is zero fails at
this concrete input. -/
theorem get_page_not_zero_filled :
    get_page_miss 0 zero_page (fun _ => 7) 0 0 = 7 ∧
    ¬ (∀ j, j < PAGE_SIZE → get_page_miss 0 zero_page (fun _ => 7) 0 j = 0) := by
  constructor
  · rfl
  · intro h
    exact absurd (h 0 (by decide)) (by decide)

/-- C8 amended: on a cache miss for a page at or beyond end-of-file, the
buffer get_page returns is the malloc'd allocation unchanged — arbitrary
contents, not guaranteed zeros. -/
theorem get_page_beyond_eof_keeps_alloc (file_length : Nat) (file : Nat → Nat) (alloc : Page)
    (page_num : Nat) (h : file_length ≤ page_num * PAGE_SIZE) :
    ∀ j, get_page_miss file_length file alloc page_num j = alloc j := by
  intro j
  unfold get_page_miss
  have hz : file_length - page_num * PAGE_SIZE = 0 := by omega
  rw [hz]
  split_ifs with h1 h2
  · simp at h2
  · rfl
  · rfl

/-- Witness for C8's amended statement: fetching page 3 of a one-page file
returns the allocation byte 9, not zero. -/
theorem get_page_beyond_eof_keeps_alloc_witness :
    get_page_miss 4096 zero_page (fun _ => 9) 3 5 = 9 :=
  get_page_beyond_eof_keeps_alloc 4096 zero_page (fun _ => 9) 3 (by decide) 5

end DB
